import Mathlib

/-!
Verification development for the BTC signal backtesting engine.

Shallow embedding of the core numeric routines of the repository
(`backtesting/optimal_params.py`, `backtesting/analyze.py`,
`backtesting/channel_stats.py`, `backtesting/monte_carlo.py`,
`backtesting/sim_engine.py`, `backtesting/deep_analysis.py`,
`backtesting/zone_test.py`).  Machine floats are embedded as `ℚ`
(exact rational arithmetic); values that the source computes with
`numpy.sqrt` are embedded in `ℝ`.  `numpy` NaN entries of the forward
percentage matrix are embedded as `none : Option ℚ`.
-/

namespace Backtest

/-! ### Statistics helpers (`optimal_params.py` lines 220-231,
`channel_stats.py` lines 82-87). -/

open Classical

/-! ### Constants (`optimal_params.py`, `analyze.py`) -/

/-- `MAX_HOLD = 1440` (`optimal_params.py` line 8). -/
def MAX_HOLD : ℕ := 1440

/-- `MIN_SIGNALS_WF = 100` (`optimal_params.py` line 10). -/
def MIN_SIGNALS_WF : ℕ := 100

/-- `OVERFITTING_RATIO = 0.50` (`optimal_params.py` line 9). -/
def ovfCut : ℚ := 1 / 2

/-- `TP_RANGE = np.arange(0.2, 3.1, 0.2)`: the 15 values 0.2, 0.4, …, 3.0. -/
def TP_RANGE : List ℚ := (List.range 15).map (fun k => ((k : ℚ) + 1) / 5)

/-- `SL_RANGE = np.arange(0.2, 3.1, 0.2)`. -/
def SL_RANGE : List ℚ := TP_RANGE

/-- `THRESHOLD_RANGE = np.arange(30, 81, 5)`: 30, 35, …, 80. -/
def THRESHOLD_RANGE : List ℚ := (List.range 11).map (fun k => 30 + 5 * (k : ℚ))

/-! ### Rounding helpers (`round(x, d)` in the source).

Python's `round` on floats is round-half-to-even; we embed it with
Mathlib's `round` (round-half-up), which agrees except exactly at
representable halves — none of the facts proved here depend on the
tie-breaking direction. -/

/-- `round(x, 1)`. -/
def round1 (q : ℚ) : ℚ := (round (q * 10) : ℤ) / 10

/-- `round(x, 2)`. -/
def round2 (q : ℚ) : ℚ := (round (q * 100) : ℤ) / 100

/-- `round(x, 3)`. -/
def round3 (q : ℚ) : ℚ := (round (q * 1000) : ℤ) / 1000

/-- `round(x, 4)`. -/
def round4 (q : ℚ) : ℚ := (round (q * 10000) : ℤ) / 10000

/-! ### Path-dependent exit resolution
(`optimal_params.py`, `_search_tpsl` lines 123-164 and
`_evaluate_params` lines 167-207).

One row of the direction-signed forward percentage matrix is a
`List (Option ℚ)`; `none` is a NaN entry (overflow past the end of the
price series, or an invalid entry price).
`np.argmax(bool_row)` on a row with no `True` returns 0 and the source
replaces it by the sentinel `MAX_HOLD` (= the row length); this is
exactly `List.findIdx`, which returns the length when no entry
matches. -/

/-- Lift a comparison to an `Option ℚ` path entry; a NaN entry never
satisfies a comparison (`directed >= tp` is `False` on NaN). -/
def opHit (p : ℚ → Bool) : Option ℚ → Bool
  | some v => p v
  | none => false

/-- Row-wise exit resolution of `_search_tpsl` lines 126-153 (the same
element-wise computation appears in `_evaluate_params` lines 186-201):
`tp_first`/`sl_first` are the first indices where the directed row is
`>= tp` resp. `<= -sl` (sentinel = row length); `tp_wins` when
`tp_first <= sl_first` and a TP hit exists, `sl_hits` when
`sl_first < tp_first` and an SL hit exists; otherwise the return at
`clip(valid_count - 1, 0, n - 1)` (NaN mapped to `0.0`) is realized;
the fee is subtracted in every branch. -/
def resolve_row (row : List (Option ℚ)) (tp sl fee : ℚ) : ℚ :=
  let n := row.length
  let tpFirst := row.findIdx (opHit (fun v => decide (tp ≤ v)))
  let slFirst := row.findIdx (opHit (fun v => decide (v ≤ -sl)))
  let validCount := row.countP (fun o => o.isSome)
  let lastIdx := min (validCount - 1) (n - 1)
  let finalRet := (row.getD lastIdx none).getD 0
  if tpFirst ≤ slFirst ∧ tpFirst < n then tp - fee
  else if slFirst < tpFirst ∧ slFirst < n then -sl - fee
  else finalRet - fee

/-- First index of a hit on the sequence of available (non-missing)
path values, in the claim's vocabulary. -/
def firstHit (p : ℚ → Bool) : List ℚ → Option ℕ
  | [] => none
  | v :: vs => cond (p v) (some 0) ((firstHit p vs).map (· + 1))

/-- Exit resolution as worded by the claim (follows the claim's
wording, for refinement comparison with `resolve_row`): take-profit
wins when its first hit index exists and is `≤` the first stop-loss
hit index (ties favour take-profit, a missing stop-loss hit never
blocks it); a stop-loss strictly first (or with take-profit never hit)
realizes `-sl`; otherwise the signed return at the last available
index is realized; minus fee throughout. -/
def spec_exit (vals : List ℚ) (tp sl fee : ℚ) : ℚ :=
  match firstHit (fun v => decide (tp ≤ v)) vals,
        firstHit (fun v => decide (v ≤ -sl)) vals with
  | some t, some s => if t ≤ s then tp - fee else -sl - fee
  | some _, none => tp - fee
  | none, some _ => -sl - fee
  | none, none => vals.getLastD 0 - fee

/-- `np.mean`. -/
def npMean (l : List ℚ) : ℚ := l.sum / l.length

/-- `np.std` (population standard deviation). -/
noncomputable def npStd (l : List ℚ) : ℝ :=
  Real.sqrt (((l.map (fun x => ((x : ℝ) - (npMean l : ℝ)) ^ 2)).sum) / l.length)

/-- `round(x, 3)` on a real value. -/
noncomputable def round3R (x : ℝ) : ℝ := (round (x * 1000) : ℤ) / 1000

/-- `round(x, 4)` on a real value. -/
noncomputable def round4R (x : ℝ) : ℝ := (round (x * 10000) : ℤ) / 10000

/-- `_sharpe` of `optimal_params.py` lines 220-223: 0 for fewer than two
samples or zero variance, else `mean/std * sqrt(8760)` rounded to 4
decimals. -/
noncomputable def sharpe_ann (rets : List ℚ) : ℝ :=
  if rets.length < 2 ∨ npStd rets = 0 then 0
  else round4R (((npMean rets : ℝ) / npStd rets) * Real.sqrt 8760)

/-- `_pf` of `optimal_params.py` lines 226-231: gains over absolute
losses, with finite sentinel `99.0` when there are no losses but some
gain, `0.0` when neither. -/
def pf (rets : List ℚ) : ℚ :=
  let gains := (rets.filter (fun x => decide (0 < x))).sum
  let losses := |(rets.filter (fun x => decide (x < 0))).sum|
  if losses = 0 then (if 0 < gains then 99 else 0) else round3 (gains / losses)

/-- Value of `_profit_factor` in `channel_stats.py`: a float that may
be `float("inf")`. -/
inductive PFVal where
  | fin (q : ℚ)
  | inf
  deriving DecidableEq

/-- `_profit_factor` of `channel_stats.py` lines 82-87: same ratio but
the no-loss/some-gain case returns `float("inf")`. -/
def profit_factor (returns : List ℚ) : PFVal :=
  let gains := (returns.filter (fun x => decide (0 < x))).sum
  let losses := |(returns.filter (fun x => decide (x < 0))).sum|
  if losses = 0 then (if 0 < gains then PFVal.inf else PFVal.fin 0)
  else PFVal.fin (round3 (gains / losses))

/-! ### Signals, prices and the forward-percentage matrix
(`optimal_params.py` lines 66-90). -/

/-- One signal record, with the fields `optimal_params.py` reads:
epoch-second timestamp, `indicator_value` (`none` = NaN) and
`derived_direction`. -/
structure Sig where
  ts : ℤ
  ind : Option ℚ
  dir : String

/-- `np.where(dirs == "bullish", 1.0, -1.0)` / the
`{"bullish": 1.0, "bearish": -1.0}` direction-sign map. -/
def dirSign (d : String) : ℚ := if d = "bullish" then 1 else -1

/-- `np.searchsorted(xs, v, side="left")` on a sorted array: the number
of elements strictly below `v`. -/
def searchsorted_left (xs : List ℤ) (v : ℤ) : ℕ :=
  xs.countP (fun x => decide (x < v))

/-- `_prepare_prices` lines 66-70: sort the price table by timestamp
and return the parallel timestamp/price arrays. -/
def prepare_prices (dfPrices : List (ℤ × ℚ)) : List ℤ × List ℚ :=
  let sorted := dfPrices.insertionSort (fun a b => a.1 ≤ b.1)
  (sorted.map (fun x => x.1), sorted.map (fun x => x.2))

/-- One row of `_build_pct_matrix` lines 73-90 together with the entry
price: offsets past the series end are NaN (`none`), as is the whole
row when the entry price is not positive. -/
def build_pct_row (sigTs : ℤ) (priceTs : List ℤ) (prices : List ℚ) :
    List (Option ℚ) × ℚ :=
  let m := prices.length
  let entryIdx := min (searchsorted_left priceTs sigTs) (m - 1)
  let ep := prices.getD entryIdx 0
  let row := (List.range MAX_HOLD).map (fun off =>
    let j := entryIdx + off
    if m ≤ j then none
    else if 0 < ep then some ((prices.getD j 0 - ep) / ep * 100) else none)
  (row, ep)

/-! ### Grid search (`optimal_params.py` lines 93-164). -/

/-- A grid-search best record (`_search_tpsl`'s `best` dict). -/
structure BestPoint where
  tp : ℚ
  sl : ℚ
  threshold : Option ℚ
  sharpe : ℝ
  pf : ℚ
  totalRet : ℚ
  trades : ℕ

/-- `_search_tpsl` lines 123-164, with the vectorized per-row TP/SL
resolution expressed row-wise through `resolve_row`: for every grid
cell compute the realized returns, skip cells with fewer than 10
trades, and keep the candidate with the strictly highest Sharpe. -/
noncomputable def search_tpsl (directed : List (List (Option ℚ)))
    (feePct : ℚ) (thresh : Option ℚ) (best0 : Option BestPoint) :
    Option BestPoint :=
  TP_RANGE.foldl (fun acc tp =>
    SL_RANGE.foldl (fun b sl =>
      let rets := directed.map (fun row => resolve_row row tp sl feePct)
      if rets.length < 10 then b
      else
        let cand : BestPoint :=
          ⟨tp, sl, thresh, sharpe_ann rets, pf rets, round2 rets.sum,
            rets.length⟩
        match b with
        | none => some cand
        | some bb => if bb.sharpe < sharpe_ann rets then some cand else some bb)
      acc) best0

/-- Direction used by `_grid_search_channel` lines 105-111: the
thresholded direction (`neutral` by default, `bullish` where
`value >= thresh`, then `bearish` where `value <= 100 - thresh`) for
threshold channels, the stored `derived_direction` otherwise.  A NaN
indicator value satisfies neither comparison and stays `neutral`. -/
def grid_dir (thresh : Option ℚ) (s : Sig) : String :=
  match thresh with
  | none => s.dir
  | some t =>
      match s.ind with
      | none => ("neutral")
      | some v =>
          if v ≤ 100 - t then ("bearish")
          else if t ≤ v then ("bullish") else ("neutral")

/-- The mask of `_grid_search_channel` line 113: directional signals
with a positive entry price. -/
def grid_select (pairs : List (Sig × (List (Option ℚ) × ℚ)))
    (dirOf : Sig → String) : List (Sig × (List (Option ℚ) × ℚ)) :=
  pairs.filter (fun x =>
    decide ((dirOf x.1 = "bullish" ∨ dirOf x.1 = "bearish") ∧ 0 < x.2.2))

/-- `_grid_search_channel` lines 93-120. -/
noncomputable def grid_search_channel (sigs : List Sig) (priceTs : List ℤ)
    (prices : List ℚ) (feePct : ℚ) (hasThreshold : Bool) :
    Option BestPoint :=
  let thresholds := if hasThreshold then THRESHOLD_RANGE.map some else [none]
  let pairs := sigs.map (fun s => (s, build_pct_row s.ts priceTs prices))
  thresholds.foldl (fun best thresh =>
    let sel := grid_select pairs (grid_dir thresh)
    if sel.length < 20 then best
    else
      let directed := sel.map (fun x =>
        x.2.1.map (Option.map (fun v => v * dirSign (grid_dir thresh x.1))))
      search_tpsl directed feePct thresh best) none

/-! ### Out-of-sample evaluation (`optimal_params.py` lines 167-217). -/

/-- `_apply_threshold` lines 210-217: set `bullish` where
`value >= threshold`, then `bearish` where `value <= 100 - threshold`,
then `neutral` strictly between; a NaN value keeps the stored
direction. -/
def apply_threshold (t : ℚ) (s : Sig) : String :=
  match s.ind with
  | none => s.dir
  | some v =>
      if v ≤ 100 - t then ("bearish")
      else if t ≤ v then ("bullish") else ("neutral")

/-- The stats dict returned by `_evaluate_params`. -/
structure OosStats where
  sharpe : ℝ
  pf : ℚ
  totalRet : ℚ
  trades : ℕ

/-- `_evaluate_params` lines 167-207. -/
noncomputable def evaluate_params (sigs : List Sig) (priceTs : List ℤ)
    (prices : List ℚ) (feePct tp sl : ℚ) (threshold : Option ℚ) :
    OosStats :=
  let dirOf : Sig → String := fun s =>
    match threshold with
    | none => s.dir
    | some t => apply_threshold t s
  let directional := sigs.filter (fun s =>
    decide (dirOf s = "bullish" ∨ dirOf s = "bearish"))
  if directional.length < 5 then ⟨0, 0, 0, 0⟩
  else
    let withRows := directional.map
      (fun s => (s, build_pct_row s.ts priceTs prices))
    let valid := withRows.filter (fun x => decide (0 < x.2.2))
    if valid.length < 5 then ⟨0, 0, 0, 0⟩
    else
      let rets := valid.map (fun x =>
        resolve_row (x.2.1.map (Option.map (fun v => v * dirSign (dirOf x.1))))
          tp sl feePct)
      ⟨sharpe_ann rets, pf rets, round2 rets.sum, rets.length⟩

/-! ### The per-channel walk-forward body (`run`, lines 15-63). -/

/-- The per-channel result dict built by `run` lines 44-62. -/
structure ChOk where
  bestTp : ℚ
  bestSl : ℚ
  bestThreshold : Option ℚ
  isSharpe : ℝ
  isPf : ℚ
  isTotalRet : ℚ
  isTrades : ℕ
  oosSharpe : ℝ
  oosPf : ℚ
  oosTotalRet : ℚ
  oosTrades : ℕ
  overfitted : Bool
  sharpeOosIs : ℝ

/-- Per-channel outcome of `run`: an explicit skip or a stats dict. -/
inductive ChannelResult where
  | skipped (reason : String)
  | ok (r : ChOk)

/-- Lines 32-62 of `run`: either no grid point was valid (skip), or
the single selected point is evaluated once on the out-of-sample data
(`oosOf best`) and the result dict is assembled. -/
noncomputable def assemble_result (bestOpt : Option BestPoint)
    (oosOf : BestPoint → OosStats) : ChannelResult :=
  match bestOpt with
  | none => ChannelResult.skipped ("no valid params")
  | some best =>
      let oos := oosOf best
      let overfitted : Bool :=
        if 0 < best.sharpe ∧ oos.sharpe < best.sharpe * (ovfCut : ℝ)
        then true else false
      ChannelResult.ok
        { bestTp := round2 best.tp, bestSl := round2 best.sl,
          bestThreshold := best.threshold.map round1,
          isSharpe := best.sharpe, isPf := best.pf,
          isTotalRet := best.totalRet, isTrades := best.trades,
          oosSharpe := oos.sharpe, oosPf := oos.pf,
          oosTotalRet := oos.totalRet, oosTrades := oos.trades,
          overfitted := overfitted,
          sharpeOosIs :=
            if 0 < best.sharpe then round3R (oos.sharpe / best.sharpe)
            else 0 }

/-- The body of the per-channel loop of `run` lines 21-62: skip small
channels, grid-search the in-sample signals, evaluate the selected
point once on the out-of-sample signals, flag overfitting. -/
noncomputable def run_channel (isSigs oosSigs : List Sig)
    (dfPrices : List (ℤ × ℚ)) (feeRate : ℚ) (hasThreshold : Bool) :
    ChannelResult :=
  let feePct := feeRate * 2 * 100
  let pp := prepare_prices dfPrices
  if isSigs.length < MIN_SIGNALS_WF then
    ChannelResult.skipped ("IS signals < 100")
  else
    assemble_result (grid_search_channel isSigs pp.1 pp.2 feePct hasThreshold)
      (fun best => evaluate_params oosSigs pp.1 pp.2 feePct best.tp best.sl
        best.threshold)

/-- The `best_params_is` component of a channel result. -/
def selected_best (r : ChannelResult) : Option (ℚ × ℚ × Option ℚ) :=
  match r with
  | ChannelResult.skipped _ => none
  | ChannelResult.ok r => some (r.bestTp, r.bestSl, r.bestThreshold)

/-! ### Chronological IS/OOS split (`analyze.py` lines 95-99). -/

/-- `IS_RATIO = 0.70` in `analyze.py` line 30 (renamed here). -/
def isRatio70 : ℚ := 7 / 10

/-- The split timestamp of `split_is_oos` (`analyze.py` line 98): the
timestamp at rank `int(len * ratio)` of the sorted timestamp column. -/
def split_ts {α : Type} (rows : List α) (ts : α → ℤ) (ratio : ℚ) : ℤ :=
  let sortedTs := (rows.map ts).insertionSort (fun a b => a ≤ b)
  sortedTs.getD (Int.toNat ⌊(rows.length : ℚ) * ratio⌋) 0

/-- `split_is_oos` (`analyze.py` lines 95-99): rows strictly before the
split timestamp are in-sample, rows at or after it are out-of-sample. -/
def split_is_oos {α : Type} (rows : List α) (ts : α → ℤ) (ratio : ℚ) :
    List α × List α :=
  let s := split_ts rows ts ratio
  (rows.filter (fun a => decide (ts a < s)),
   rows.filter (fun a => decide (s ≤ ts a)))

/-! ### Streak-filter state machine (`sim_engine.py` lines 55-178,
`deep_analysis.py` `_streak_filter` lines 125-139).

`_preseed_streak_state` (lines 72-84), the in-loop logic of `simulate`
(lines 128-172) and `_streak_filter` implement the identical per-outcome
transition; `streak_step` is that transition, returning the successor
state and the realized trade (the net return) when the filter is
active.  An outcome is a win exactly when the net return is
positive. -/

/-- `(win_streak, loss_streak, active)`. -/
structure StreakState where
  win : ℕ
  loss : ℕ
  active : Bool
  deriving DecidableEq

/-- One outcome step of the streak filter: promote to active when the
win streak has reached `n`; while active every outcome is a realized
trade, a loss bumps the loss streak and deactivates (resetting both
counters) at `m`, a win resets the loss streak; the win streak is
updated on every outcome regardless of state. -/
def streak_step (n m : ℕ) (s : StreakState) (ret : ℚ) : StreakState × Option ℚ :=
  let o : Bool := decide (0 < ret)
  let s1 := if ¬ s.active ∧ n ≤ s.win then
      { s with active := true, loss := 0 } else s
  if s1.active then
    if o then (⟨s1.win + 1, 0, true⟩, some ret)
    else if m ≤ s1.loss + 1 then (⟨0, 0, false⟩, some ret)
    else (⟨0, s1.loss + 1, true⟩, some ret)
  else (⟨if o then s1.win + 1 else 0, s1.loss, s1.active⟩, none)

/-- Run the streak filter over a net-return sequence from a given
initial state, collecting the realized trades in order. -/
def run_streak (n m : ℕ) : StreakState → List ℚ → StreakState × List ℚ
  | s, [] => (s, [])
  | s, r :: rs =>
      let st := streak_step n m s r
      let rest := run_streak n m st.1 rs
      (rest.1, st.2.toList ++ rest.2)

/-- `_preseed_streak_state` (`sim_engine.py` lines 55-91) for one
channel: the terminal streak state after the in-sample outcome
sequence, starting cold. -/
def preseed_streak_state (n m : ℕ) (isRets : List ℚ) : StreakState :=
  (run_streak n m ⟨0, 0, false⟩ isRets).1

/-! ### Overfitting flags (C6): `optimal_params.py` lines 40-42,
`deep_analysis.py` line 117, `zone_test.py` lines 307-315. -/

/-- Lines 40-42 of `run` (`optimal_params.py`): `overfitted = True` iff
in-sample Sharpe `> 0` and out-of-sample Sharpe `<` in-sample Sharpe
times `OVERFITTING_RATIO`. -/
def overfitted_op (isSharpe oosSharpe : ℚ) : Bool :=
  decide (0 < isSharpe ∧ oosSharpe < isSharpe * ovfCut)

/-- Line 117 of `deep_analysis.py` (`_streak_grid`):
`ovf = best["sharpe"] > 0 and oos_s.get("sharpe", 0) < best["sharpe"] * 0.5`,
where an empty OOS stats dict defaults the OOS Sharpe to 0. -/
def overfitted_streak (isSharpe : ℚ) (oosSharpe : Option ℚ) : Bool :=
  decide (0 < isSharpe ∧ oosSharpe.getD 0 < isSharpe * (1/2))

/-- Lines 307-315 of `zone_test.py` (`_walk_forward`): same flag, but
reported as `None` when no OOS stats were produced
(`"overfitted": ovf if oos_s else None`). -/
def overfitted_zone (isSharpe : ℚ) (oosSharpe : Option ℚ) : Option Bool :=
  match oosSharpe with
  | none => none
  | some s => some (decide (0 < isSharpe ∧ s < isSharpe * (1/2)))

/-! ### Monte Carlo conventions (`monte_carlo.py`). -/

/-- `N_SHUFFLES = 1000` (`monte_carlo.py` line 5). -/
def N_SHUFFLES : ℕ := 1000

/-- `(shuffled_sharpes >= actual_sharpe).mean()` (line 71): the
fraction of null statistics at or above the observed one. -/
def mc_p_value (actual : ℚ) (shuffled : List ℚ) : ℚ :=
  (shuffled.countP (fun s => decide (actual ≤ s)) : ℚ) / shuffled.length

/-- `_z_score` lines 131-135: 0 when the null distribution has zero
standard deviation, else `(actual - mean) / std`. -/
noncomputable def z_score (actual : ℚ) (dist : List ℚ) : ℝ :=
  if npStd dist = 0 then 0
  else ((actual : ℝ) - (npMean dist : ℝ)) / npStd dist

/-- The fields of the per-channel dict of `_direction_shuffle`
lines 74-83 that the claim concerns. -/
structure McChannel where
  pValue : ℚ
  zScore : ℝ
  sig5 : Bool
  sig1 : Bool

/-- Lines 71-83 of `_direction_shuffle`: p-value (reported rounded to
4 decimals), z-score (rounded to 3), and the two significance flags
computed from the unrounded p-value. -/
noncomputable def direction_shuffle_channel (actual : ℚ)
    (shuffled : List ℚ) : McChannel :=
  let p := mc_p_value actual shuffled
  { pValue := round4 p,
    zScore := round3R (z_score actual shuffled),
    sig5 := decide (p < 5/100),
    sig1 := decide (p < 1/100) }

/-! ### Invalid entry prices (C8): `monte_carlo.py` `_timestamp_shuffle`
lines 106-112, `optimal_params.py` `_build_pct_matrix` / mask lines
102-113. -/

/-- One shuffle iteration of `_timestamp_shuffle` (lines 106-112),
with the sampled `rand_idx` made explicit: entry and exit prices are
taken 60 samples apart, `raw_pct = np.where(valid, ..., 0)` zero-fills
a non-positive entry price, and `net.mean()` averages over ALL sampled
observations. -/
def timestamp_shuffle_mean (priceVals : List ℚ) (randIdx : List ℕ)
    (signs : List ℚ) (feePct : ℚ) : ℚ :=
  let nets := (randIdx.zip signs).map (fun z =>
    let ep := priceVals.getD z.1 0
    let xp := priceVals.getD (z.1 + 60) 0
    let raw := if 0 < ep then (xp - ep) / ep * 100 else 0
    raw * z.2 - feePct)
  nets.sum / nets.length

/-- The claim's exclusion semantics (follows the claim's wording, for
comparison with `timestamp_shuffle_mean`): observations whose entry
price is `≤ 0` are excluded from the mean, not zero-filled. -/
def timestamp_shuffle_mean_excl (priceVals : List ℚ) (randIdx : List ℕ)
    (signs : List ℚ) (feePct : ℚ) : ℚ :=
  let nets := ((randIdx.zip signs).filter
      (fun z => decide (0 < priceVals.getD z.1 0))).map (fun z =>
    let ep := priceVals.getD z.1 0
    let xp := priceVals.getD (z.1 + 60) 0
    ((xp - ep) / ep * 100) * z.2 - feePct)
  nets.sum / nets.length

/-- A 62-sample price array whose first sample is a zero price. -/
def cexPrices : List ℚ := [0, 100] ++ List.replicate 58 100 ++ [100, 110]

/-! ### Zone clustering (`zone_test.py` lines 27, 31, 121-143).

`_cluster_zones` sorts the observations by price and sweeps once,
absorbing each next observation into the current cluster while its
price is within the tolerance of the current cluster's FIRST member;
the tolerance is the module constant `CLUSTER_PCT`, not the
`zone_width_pct` grid value (`ZONE_WIDTHS` only parameterises the
touch band of `_find_entries`). -/

/-- `CLUSTER_PCT = 0.3` (`zone_test.py` line 27). -/
def CLUSTER_PCT : ℚ := 3 / 10

/-- `ZONE_WIDTHS = [0.1, 0.15, 0.2, 0.3]` (`zone_test.py` line 31). -/
def ZONE_WIDTHS : List ℚ := [1/10, 3/20, 1/5, 3/10]

/-- A `(price, side)` observation with its confirmation timestamp. -/
structure Obs where
  price : ℚ
  side : String
  tconf : ℤ
  deriving DecidableEq

/-- One zone dict produced by `_cluster_zones`. -/
structure Cluster where
  price : ℚ
  ztype : String
  strength : ℕ
  tconf : ℤ
  deriving DecidableEq

/-- The inner sweep of `_cluster_zones` lines 129-142: `first` is the
current cluster's first member (`sp[i]`), `cur` the later members
absorbed so far (in reverse); an observation within `pct` percent of
`first` joins the cluster, otherwise the cluster is emitted and a new
one starts. -/
def groupsGo (pct : ℚ) : Obs → List Obs → List Obs → List (List Obs)
  | first, cur, [] => [first :: cur.reverse]
  | first, cur, y :: ys =>
      if (y.price - first.price) / first.price * 100 ≤ pct then
        groupsGo pct first (y :: cur) ys
      else
        (first :: cur.reverse) :: groupsGo pct y [] ys

/-- The groups of price-sorted observations merged by the sweep. -/
def groupsOf (pct : ℚ) : List Obs → List (List Obs)
  | [] => []
  | x :: xs => groupsGo pct x [] xs

/-- Lines 134-141: one cluster dict from a merged group — mean price,
majority type (`"support" if n_sup >= len(grp_t) - n_sup`), strength =
member count, latest confirmation timestamp. -/
def mk_cluster (grp : List Obs) : Cluster :=
  let nSup := grp.countP (fun o => decide (o.side = "support"))
  { price := npMean (grp.map (fun o => o.price)),
    ztype := if grp.length - nSup ≤ nSup then ("support")
             else ("resistance"),
    strength := grp.length,
    tconf := match grp.map (fun o => o.tconf) with
             | [] => 0
             | t :: ts => ts.foldl max t }

/-- `np.argsort(prices)` ordering of the observations. -/
def sort_obs (obs : List Obs) : List Obs :=
  obs.insertionSort (fun a b => a.price ≤ b.price)

/-- `_cluster_zones` lines 121-143, generalized over the cluster
tolerance (the source fixes it to the module constant
`CLUSTER_PCT`). -/
def cluster_zones_with (pct : ℚ) (obs : List Obs) : List Cluster :=
  (groupsOf pct (sort_obs obs)).map mk_cluster

/-- `_cluster_zones` exactly as the source runs it: the tolerance is
always `CLUSTER_PCT`, for every `zw` in `ZONE_WIDTHS` of the grid. -/
def cluster_zones (obs : List Obs) : List Cluster :=
  cluster_zones_with CLUSTER_PCT obs

/-! ## Theorems -/

/-! #### Helper lemmas for the padded-row shape
(`_build_pct_matrix` produces rows whose NaN entries are a suffix:
`idx_2d >= m` is monotone in the offset). -/

theorem findIdx_replicate_none (p : ℚ → Bool) (k : ℕ) :
    (List.replicate k (none : Option ℚ)).findIdx (opHit p) = k := by
  induction k with
  | zero => rfl
  | succ k ih =>
      simp only [List.replicate_succ, List.findIdx_cons]
      simp [opHit, ih]

theorem findIdx_padded (p : ℚ → Bool) (vals : List ℚ) (k : ℕ) :
    (vals.map some ++ List.replicate k (none : Option ℚ)).findIdx (opHit p)
      = (firstHit p vals).getD (vals.length + k) := by
  induction vals with
  | nil =>
      simp [firstHit, findIdx_replicate_none]
  | cons v vs ih =>
      simp only [List.map_cons, List.cons_append, List.findIdx_cons, firstHit]
      cases hp : p v with
      | true => simp [opHit, hp]
      | false =>
          simp only [opHit, hp, cond_false, ih]
          cases h : firstHit p vs with
          | some i => simp
          | none =>
              simp only [Option.getD_none, Option.map_none', List.length_cons]
              omega

theorem firstHit_lt_length (p : ℚ → Bool) (vals : List ℚ) (i : ℕ)
    (h : firstHit p vals = some i) : i < vals.length := by
  induction vals generalizing i with
  | nil => simp [firstHit] at h
  | cons v vs ih =>
      simp only [firstHit] at h
      cases hp : p v with
      | true =>
          rw [hp, cond_true] at h
          simp only [Option.some.injEq] at h
          simp [← h]
      | false =>
          rw [hp, cond_false] at h
          cases h' : firstHit p vs with
          | none => rw [h'] at h; simp at h
          | some j =>
              rw [h'] at h
              simp only [Option.map_some', Option.some.injEq] at h
              have hj := ih j h'
              simp only [List.length_cons]
              omega

theorem countP_padded (vals : List ℚ) (k : ℕ) :
    (vals.map some ++ List.replicate k (none : Option ℚ)).countP
        (fun o => o.isSome) = vals.length := by
  induction vals with
  | nil =>
      simp only [List.map_nil, List.nil_append]
      induction k with
      | zero => rfl
      | succ k ih =>
          simp only [List.replicate_succ, List.countP_cons]
          simp [ih]
  | cons v vs ih =>
      simp only [List.map_cons, List.cons_append, List.countP_cons]
      simp [ih]

theorem getD_padded_last (vals : List ℚ) (k : ℕ) (h : vals ≠ []) :
    (vals.map some ++ List.replicate k (none : Option ℚ)).getD
        (vals.length - 1) none = some (vals.getLastD 0) := by
  have hlen : vals.length - 1 < vals.length := by
    cases vals with
    | nil => exact absurd rfl h
    | cons a l => simp
  have hlt : vals.length - 1 < (vals.map some).length := by
    simpa using hlen
  rw [List.getD_eq_getElem?_getD, List.getElem?_append, if_pos hlt,
    List.getElem?_map, List.getElem?_eq_getElem hlen]
  simp [List.getLastD_eq_getLast?, List.getLast?_eq_getElem?,
    List.getElem?_eq_getElem hlen]

/-- C1. Path-dependent exit resolution: on a direction-signed forward
percentage path whose available values are `vals` followed by `k`
missing (NaN) positions, the code's exit resolution (`_search_tpsl` /
`_evaluate_params` in `optimal_params.py`, row-wise `resolve_row`)
realizes `+tp − fee` when the first TP-hit index exists and is `≤` the
first SL-hit index (ties favour take-profit), `−sl − fee` when the SL
level was reached strictly before TP or with TP never reached, and
otherwise the signed return at the last available index minus fee;
missing positions never count as a hit. -/
theorem C1_path_exit_resolution (vals : List ℚ) (k : ℕ) (tp sl fee : ℚ)
    (h : vals ≠ []) :
    resolve_row (vals.map some ++ List.replicate k (none : Option ℚ)) tp sl fee
      = spec_exit vals tp sl fee := by
  have hL : 0 < vals.length := List.length_pos.mpr h
  have hmin : min (vals.length - 1) (vals.length + k - 1) = vals.length - 1 := by
    omega
  unfold resolve_row spec_exit
  simp only [List.length_append, List.length_map, List.length_replicate,
    findIdx_padded, countP_padded, hmin]
  cases htp : firstHit (fun v => decide (tp ≤ v)) vals with
  | some t =>
      have htl := firstHit_lt_length _ _ _ htp
      cases hsl : firstHit (fun v => decide (v ≤ -sl)) vals with
      | some s =>
          have hsll := firstHit_lt_length _ _ _ hsl
          by_cases hts : t ≤ s
          · have h1 : t ≤ s ∧ t < vals.length + k := ⟨hts, by omega⟩
            simp [h1, hts]
          · have h1 : ¬(t ≤ s ∧ t < vals.length + k) := fun hc => hts hc.1
            have h2 : s < t ∧ s < vals.length + k := ⟨by omega, by omega⟩
            simp [h1, h2, hts]
      | none =>
          have h1 : t ≤ vals.length + k ∧ t < vals.length + k :=
            ⟨by omega, by omega⟩
          simp [h1]
  | none =>
      cases hsl : firstHit (fun v => decide (v ≤ -sl)) vals with
      | some s =>
          have hsll := firstHit_lt_length _ _ _ hsl
          have h1 : ¬(vals.length + k ≤ s ∧ vals.length + k < vals.length + k) :=
            fun hc => by omega
          have h2 : s < vals.length + k ∧ s < vals.length + k := ⟨by omega, by omega⟩
          simp [h1, h2]
      | none =>
          have h1 : ¬(vals.length + k ≤ vals.length + k ∧
              vals.length + k < vals.length + k) := fun hc => by omega
          have hg := getD_padded_last vals k h
          rw [List.getD_eq_getElem?_getD] at hg
          simp [h1, hg, List.getLastD_eq_getLast?]

/-- Concrete instance of `C1_path_exit_resolution`: a 3-sample path
with 2 missing positions where neither TP nor SL is hit resolves to
the last available signed return minus fee. -/
theorem C1_path_exit_resolution_witness :
    (([(1 : ℚ)/2, 1, -(1/2)] : List ℚ) ≠ []) ∧
      resolve_row ([(1 : ℚ)/2, 1, -(1/2)].map some
          ++ List.replicate 2 (none : Option ℚ)) 2 1 (1/5)
        = spec_exit [(1 : ℚ)/2, 1, -(1/2)] 2 1 (1/5) ∧
      spec_exit [(1 : ℚ)/2, 1, -(1/2)] 2 1 (1/5) = -(7/10) :=
  ⟨by simp, C1_path_exit_resolution [(1 : ℚ)/2, 1, -(1/2)] 2 2 1 (1/5)
      (by simp), by norm_num [spec_exit, firstHit]⟩

/-- C3. Out-of-sample noninterference: for a channel with at least
`MIN_SIGNALS_WF` in-sample signals, the selected best grid point
(`best_params_is`) computed by the per-channel walk-forward body is a
function of the in-sample signals and the price series only — two runs
with identical in-sample signals and prices but arbitrarily different
out-of-sample signals select the same point. -/
theorem selected_best_assemble (bestOpt : Option BestPoint)
    (f g : BestPoint → OosStats) :
    selected_best (assemble_result bestOpt f)
      = selected_best (assemble_result bestOpt g) := by
  cases bestOpt <;> rfl

theorem C3_oos_noninterference (isSigs oos1 oos2 : List Sig)
    (dfPrices : List (ℤ × ℚ)) (feeRate : ℚ) (hasThreshold : Bool)
    (h : MIN_SIGNALS_WF ≤ isSigs.length) :
    selected_best (run_channel isSigs oos1 dfPrices feeRate hasThreshold)
      = selected_best (run_channel isSigs oos2 dfPrices feeRate hasThreshold) := by
  have hn : ¬ isSigs.length < MIN_SIGNALS_WF := Nat.not_lt.mpr h
  unfold run_channel
  rw [if_neg hn, if_neg hn]
  exact selected_best_assemble _ _ _

/-- Concrete instance of `C3_oos_noninterference`: 100 identical
in-sample signals, empty vs. non-empty out-of-sample sets. -/
theorem C3_oos_noninterference_witness :
    MIN_SIGNALS_WF ≤ (List.replicate 100 (⟨0, none, ("neutral")⟩ : Sig)).length
    ∧ selected_best (run_channel
          (List.replicate 100 (⟨0, none, ("neutral")⟩ : Sig)) []
          [] (1/1000) false)
      = selected_best (run_channel
          (List.replicate 100 (⟨0, none, ("neutral")⟩ : Sig))
          [⟨0, none, ("bullish")⟩] [] (1/1000) false) :=
  ⟨by simp [MIN_SIGNALS_WF], C3_oos_noninterference _ _ _ _ _ _
    (by simp [MIN_SIGNALS_WF])⟩

theorem length_filter_split {α : Type} (l : List α) (p : α → Bool) :
    (l.filter p).length + (l.filter (fun a => !(p a))).length = l.length := by
  induction l with
  | nil => rfl
  | cons x xs ih =>
      cases hp : p x <;> simp [List.filter_cons, hp] <;> omega

/-- C2. Chronological walk-forward split: for a non-empty collection
and any ratio in (0,1), every in-sample record's timestamp is strictly
below the split timestamp, every out-of-sample record's timestamp is
at or above it, hence every in-sample timestamp is strictly below
every out-of-sample timestamp; and the two parts partition the rows. -/
theorem C2_chronological_split {α : Type} (rows : List α) (ts : α → ℤ)
    (ratio : ℚ) (hne : rows ≠ []) (h0 : 0 < ratio) (h1 : ratio < 1) :
    (∀ a ∈ (split_is_oos rows ts ratio).1, ts a < split_ts rows ts ratio)
    ∧ (∀ b ∈ (split_is_oos rows ts ratio).2, split_ts rows ts ratio ≤ ts b)
    ∧ (∀ a ∈ (split_is_oos rows ts ratio).1,
        ∀ b ∈ (split_is_oos rows ts ratio).2, ts a < ts b)
    ∧ (split_is_oos rows ts ratio).1.length
        + (split_is_oos rows ts ratio).2.length = rows.length := by
  refine ⟨?_, ?_, ?_, ?_⟩
  · intro a ha
    have := (List.mem_filter.mp ha).2
    simpa using this
  · intro b hb
    have := (List.mem_filter.mp hb).2
    simpa using this
  · intro a ha b hb
    have h1' := (List.mem_filter.mp ha).2
    have h2' := (List.mem_filter.mp hb).2
    simp only [decide_eq_true_eq] at h1' h2'
    omega
  · have hcongr : rows.filter (fun a => decide (split_ts rows ts ratio ≤ ts a))
        = rows.filter (fun a => !(decide (ts a < split_ts rows ts ratio))) := by
      apply List.filter_congr
      intro a _
      by_cases hc : ts a < split_ts rows ts ratio
      · simp [hc, show ¬ split_ts rows ts ratio ≤ ts a by omega]
      · simp [hc, show split_ts rows ts ratio ≤ ts a by omega]
    simp only [split_is_oos, hcongr]
    exact length_filter_split rows _

/-- Concrete instance of `C2_chronological_split` on three rows with
the default 0.70 ratio. -/
theorem C2_chronological_split_witness :
    (([10, 20, 30] : List ℤ) ≠ [] ∧ 0 < isRatio70 ∧ isRatio70 < 1)
    ∧ (∀ a ∈ (split_is_oos ([10, 20, 30] : List ℤ) id isRatio70).1,
        ∀ b ∈ (split_is_oos ([10, 20, 30] : List ℤ) id isRatio70).2,
          id a < id b) :=
  ⟨⟨by simp, by norm_num [isRatio70], by norm_num [isRatio70]⟩,
    (C2_chronological_split [10, 20, 30] id isRatio70 (by simp)
      (by norm_num [isRatio70]) (by norm_num [isRatio70])).2.2.1⟩

/-! ### Profit-factor conventions (C4). -/

theorem round3_nonneg (q : ℚ) (hq : 0 ≤ q) : 0 ≤ round3 q := by
  unfold round3
  have h : (0 : ℤ) ≤ round (q * 1000) := by
    rw [round_eq]
    exact Int.floor_nonneg.mpr (by linarith)
  have : (0 : ℚ) ≤ (round (q * 1000) : ℤ) := by exact_mod_cast h
  positivity

/-- C4 counterexample (claim as stated is false): `_profit_factor` of
`channel_stats.py` returns infinity (not a finite sentinel) on the
all-gain array `[1.0]`; `_pf` of `optimal_params.py` returns 1000 on
`[1000.0, -1.0]`, outside `[0, 99]`; and `_pf` returns the sentinel on
`[1.0, 0.0]` although `0.0` is a non-positive element. -/
theorem C4_profit_factor_counterexample :
    profit_factor [(1 : ℚ)] = PFVal.inf
    ∧ pf [(1000 : ℚ), -1] = 1000
    ∧ ¬ ((1000 : ℚ) ≤ 99)
    ∧ pf [(1 : ℚ), 0] = 99 := by
  refine ⟨?_, ?_, by norm_num, ?_⟩
  · norm_num [profit_factor]
  · norm_num [pf, round3, round_eq]
  · norm_num [pf]

/-- C4 amended: `_pf` is always nonnegative; when the return array has
no negative element and at least one positive element, `_pf` reports
the finite sentinel 99 while `_profit_factor` (`channel_stats.py`)
reports infinity; when every element is zero both report 0.  (The
claim's stronger statements — an upper bound by the sentinel and the
"no non-positive element" characterization — are refuted by
`C4_profit_factor_counterexample`.) -/
theorem C4_profit_factor_amended (r : List ℚ) :
    0 ≤ pf r
    ∧ ((∀ x ∈ r, 0 ≤ x) → (∃ x ∈ r, 0 < x) →
        pf r = 99 ∧ profit_factor r = PFVal.inf)
    ∧ ((∀ x ∈ r, x = 0) → pf r = 0 ∧ profit_factor r = PFVal.fin 0) := by
  refine ⟨?_, ?_, ?_⟩
  · simp only [pf]
    have hg : 0 ≤ (r.filter (fun x => decide (0 < x))).sum :=
      List.sum_nonneg (fun x hx => le_of_lt
        (by simpa using (List.mem_filter.mp hx).2))
    by_cases hl : |(r.filter (fun x => decide (x < 0))).sum| = 0
    · rw [if_pos hl]
      by_cases hgp : (0 : ℚ) < (r.filter (fun x => decide (0 < x))).sum
      · rw [if_pos hgp]; norm_num
      · rw [if_neg hgp]
    · rw [if_neg hl]
      have hlpos : 0 < |(r.filter (fun x => decide (x < 0))).sum| :=
        lt_of_le_of_ne (abs_nonneg _) (Ne.symm hl)
      exact round3_nonneg _ (div_nonneg hg (le_of_lt hlpos))
  · intro hnn hex
    have hfe : r.filter (fun x => decide (x < 0)) = [] := by
      apply List.filter_eq_nil_iff.mpr
      intro a ha
      simpa using not_lt.mpr (hnn a ha)
    have hgp : (0 : ℚ) < (r.filter (fun x => decide (0 < x))).sum := by
      obtain ⟨x, hx, hxp⟩ := hex
      apply List.sum_pos
      · intro y hy
        simpa using (List.mem_filter.mp hy).2
      · intro hnil
        rw [List.eq_nil_iff_forall_not_mem] at hnil
        exact hnil x (List.mem_filter.mpr ⟨hx, by simpa using hxp⟩)
    constructor
    · unfold pf
      rw [hfe]
      simp [hgp]
    · unfold profit_factor
      rw [hfe]
      simp [hgp]
  · intro hz
    have hfe : r.filter (fun x => decide (x < 0)) = [] := by
      apply List.filter_eq_nil_iff.mpr
      intro a ha
      simp [hz a ha]
    have hfg : r.filter (fun x => decide (0 < x)) = [] := by
      apply List.filter_eq_nil_iff.mpr
      intro a ha
      simp [hz a ha]
    constructor
    · unfold pf
      rw [hfe, hfg]
      simp
    · unfold profit_factor
      rw [hfe, hfg]
      simp

/-- Concrete instance of `C4_profit_factor_amended` on the all-gain
array `[2.0]`. -/
theorem C4_profit_factor_amended_witness :
    (∀ x ∈ ([2] : List ℚ), 0 ≤ x)
    ∧ pf [(2 : ℚ)] = 99 ∧ profit_factor [(2 : ℚ)] = PFVal.inf :=
  ⟨by norm_num,
    ((C4_profit_factor_amended [2]).2.1 (by norm_num) (by norm_num)).1,
    ((C4_profit_factor_amended [2]).2.1 (by norm_num) (by norm_num)).2⟩

theorem run_streak_append (n m : ℕ) (s : StreakState) (xs ys : List ℚ) :
    run_streak n m s (xs ++ ys)
      = ((run_streak n m (run_streak n m s xs).1 ys).1,
         (run_streak n m s xs).2
           ++ (run_streak n m (run_streak n m s xs).1 ys).2) := by
  induction xs generalizing s with
  | nil => simp [run_streak]
  | cons r rs ih =>
      simp [run_streak, ih]

/-- C5. Streak-filter state continuity across the IS/OOS boundary:
running the machine over the out-of-sample returns starting from the
preseeded terminal in-sample state yields exactly the realized trades
and terminal state of the out-of-sample portion of one continuous run
over the concatenated sequence — the state is never reset at the
boundary. -/
theorem C5_streak_continuity (n m : ℕ) (isRets oosRets : List ℚ) :
    (run_streak n m ⟨0, 0, false⟩ (isRets ++ oosRets)).1
        = (run_streak n m (preseed_streak_state n m isRets) oosRets).1
    ∧ (run_streak n m ⟨0, 0, false⟩ (isRets ++ oosRets)).2
        = (run_streak n m ⟨0, 0, false⟩ isRets).2
          ++ (run_streak n m (preseed_streak_state n m isRets) oosRets).2 := by
  rw [run_streak_append, preseed_streak_state]
  exact ⟨rfl, rfl⟩

/-- C6. Overfitting flag: whenever a best in-sample point and OOS
statistics exist, all three walk-forward sites report `overfitted`
true iff in-sample Sharpe `> 0` and out-of-sample Sharpe `< 0.5 ×`
in-sample Sharpe; the zone variant reports `None` when no OOS stats
exist. -/
theorem C6_overfitting_flag (isSh oosSh : ℚ) :
    (overfitted_op isSh oosSh = true ↔ (0 < isSh ∧ oosSh < ovfCut * isSh))
    ∧ overfitted_streak isSh (some oosSh) = overfitted_op isSh oosSh
    ∧ overfitted_zone isSh (some oosSh) = some (overfitted_op isSh oosSh)
    ∧ overfitted_zone isSh none = none := by
  refine ⟨?_, ?_, ?_, rfl⟩
  · simp [overfitted_op, mul_comm]
  · simp [overfitted_streak, overfitted_op, ovfCut]
  · simp [overfitted_zone, overfitted_op, ovfCut]

theorem round4_thousandths (k : ℕ) :
    round4 ((k : ℚ) / 1000) = (k : ℚ) / 1000 := by
  unfold round4
  have h1 : (k : ℚ) / 1000 * 10000 = ((10 * k : ℕ) : ℚ) := by
    push_cast
    ring
  rw [h1, round_natCast]
  push_cast
  ring

/-- C7. Monte Carlo conventions: with a length-`N_SHUFFLES` null
distribution the reported p-value equals the exact fraction of null
statistics `≥` the observed one (the 4-decimal rounding is the
identity on multiples of 1/1000), hence lies in `[0, 1]`; the
significance flags are exactly `p < 0.05` and `p < 0.01`; and the
z-score is `(observed − null mean) / null std`, 0 when the null std
is 0. -/
theorem C7_monte_carlo_conventions (actual : ℚ) (shuffled : List ℚ)
    (h : shuffled.length = N_SHUFFLES) :
    (direction_shuffle_channel actual shuffled).pValue
        = (shuffled.countP (fun s => decide (actual ≤ s)) : ℚ) / N_SHUFFLES
    ∧ 0 ≤ (direction_shuffle_channel actual shuffled).pValue
    ∧ (direction_shuffle_channel actual shuffled).pValue ≤ 1
    ∧ ((direction_shuffle_channel actual shuffled).sig5 = true
        ↔ mc_p_value actual shuffled < 5/100)
    ∧ ((direction_shuffle_channel actual shuffled).sig1 = true
        ↔ mc_p_value actual shuffled < 1/100)
    ∧ (npStd shuffled = 0 → z_score actual shuffled = 0)
    ∧ (npStd shuffled ≠ 0 →
        z_score actual shuffled
          = ((actual : ℝ) - (npMean shuffled : ℝ)) / npStd shuffled) := by
  have hk : shuffled.countP (fun s => decide (actual ≤ s)) ≤ 1000 := by
    have h2 := List.countP_le_length (l := shuffled)
      (p := fun s => decide (actual ≤ s))
    rw [h] at h2
    simpa [N_SHUFFLES] using h2
  have hp : mc_p_value actual shuffled
      = ((shuffled.countP (fun s => decide (actual ≤ s)) : ℚ)) / 1000 := by
    unfold mc_p_value
    rw [h]
    norm_num [N_SHUFFLES]
  have hfield : (direction_shuffle_channel actual shuffled).pValue
      = mc_p_value actual shuffled := by
    show round4 (mc_p_value actual shuffled) = mc_p_value actual shuffled
    rw [hp, round4_thousandths]
  refine ⟨?_, ?_, ?_, ?_, ?_, ?_, ?_⟩
  · rw [hfield, hp]
    norm_num [N_SHUFFLES]
  · rw [hfield, hp]
    positivity
  · rw [hfield, hp]
    rw [div_le_one (by norm_num)]
    exact_mod_cast hk
  · simp [direction_shuffle_channel]
  · simp [direction_shuffle_channel]
  · intro h0
    unfold z_score
    rw [if_pos h0]
  · intro h0
    unfold z_score
    rw [if_neg h0]

/-- Concrete instance of `C7_monte_carlo_conventions` on a degenerate
null distribution of 1000 zeros. -/
theorem C7_monte_carlo_conventions_witness :
    (List.replicate 1000 (0 : ℚ)).length = N_SHUFFLES
    ∧ 0 ≤ (direction_shuffle_channel 1 (List.replicate 1000 0)).pValue :=
  ⟨by rw [List.length_replicate]; rfl,
    (C7_monte_carlo_conventions 1 (List.replicate 1000 0)
      (by rw [List.length_replicate]; rfl)).2.1⟩

/-- C8 counterexample (claim as stated is false): in
`_timestamp_shuffle`, an observation whose sampled entry price is 0 is
not excluded — its zero-filled net return `-fee` enters the mean, so
the computed mean (24/5) differs from the exclusion semantics
(49/5). -/
theorem C8_invalid_entry_counterexample :
    timestamp_shuffle_mean cexPrices [0, 1] [1, 1] (1/5) = 24/5
    ∧ timestamp_shuffle_mean_excl cexPrices [0, 1] [1, 1] (1/5) = 49/5
    ∧ (24/5 : ℚ) ≠ 49/5 := by
  have h0 : cexPrices[(0 : ℕ)]?.getD 0 = (0 : ℚ) := rfl
  have h1 : cexPrices[(1 : ℕ)]?.getD 0 = (100 : ℚ) := rfl
  have h60 : cexPrices[(60 : ℕ)]?.getD 0 = (100 : ℚ) := rfl
  have h61 : cexPrices[(61 : ℕ)]?.getD 0 = (110 : ℚ) := rfl
  refine ⟨?_, ?_, by norm_num⟩
  · unfold timestamp_shuffle_mean
    norm_num [h0, h1, h60, h61]
  · unfold timestamp_shuffle_mean_excl
    norm_num [h0, h1, h60, h61]

/-- C8 amended: in the grid-search path (`optimal_params.py`), every
observation entering the TP/SL computation has a strictly positive
entry price (the `valid_entry` mask); the timestamp-shuffle mean of
`monte_carlo.py` coincides with the exclusion semantics only when all
sampled entry prices are positive — a non-positive sampled entry price
is zero-filled into the mean rather than excluded. -/
theorem C8_invalid_entry_amended :
    (∀ (pairs : List (Sig × (List (Option ℚ) × ℚ))) (dirOf : Sig → String)
        (x : Sig × (List (Option ℚ) × ℚ)),
        x ∈ grid_select pairs dirOf → 0 < x.2.2)
    ∧ (∀ (ps : List ℚ) (ri : List ℕ) (sg : List ℚ) (fee : ℚ),
        (∀ i ∈ ri, 0 < ps.getD i 0) →
        timestamp_shuffle_mean ps ri sg fee
          = timestamp_shuffle_mean_excl ps ri sg fee) := by
  constructor
  · intro pairs dirOf x hx
    have hmem := (List.mem_filter.mp hx).2
    simp only [decide_eq_true_eq] at hmem
    exact hmem.2
  · intro ps ri sg fee hpos
    unfold timestamp_shuffle_mean timestamp_shuffle_mean_excl
    have hfilter : (ri.zip sg).filter
        (fun z => decide (0 < ps.getD z.1 0)) = ri.zip sg := by
      rw [List.filter_eq_self]
      intro z hz
      have hz1 : z.1 ∈ ri := by
        rcases z with ⟨a, b⟩
        exact (List.mem_zip hz).1
      simpa using hpos z.1 hz1
    rw [hfilter]
    have hmap : ∀ z ∈ ri.zip sg,
        (let ep := ps.getD z.1 0
         let xp := ps.getD (z.1 + 60) 0
         let raw := if 0 < ep then (xp - ep) / ep * 100 else 0
         raw * z.2 - fee)
          = (let ep := ps.getD z.1 0
             let xp := ps.getD (z.1 + 60) 0
             ((xp - ep) / ep * 100) * z.2 - fee) := by
      intro z hz
      have hz1 : z.1 ∈ ri := by
        rcases z with ⟨a, b⟩
        exact (List.mem_zip hz).1
      simp only [if_pos (hpos z.1 hz1)]
    rw [List.map_congr_left hmap]

/-- Concrete instance of `C8_invalid_entry_amended` on an all-positive
price array. -/
theorem C8_invalid_entry_amended_witness :
    (∀ i ∈ ([0] : List ℕ), 0 < (List.replicate 62 (100 : ℚ)).getD i 0)
    ∧ timestamp_shuffle_mean (List.replicate 62 (100 : ℚ)) [0] [1] (1/5)
      = timestamp_shuffle_mean_excl (List.replicate 62 (100 : ℚ)) [0] [1]
          (1/5) :=
  ⟨by
    intro i hi
    simp only [List.mem_singleton] at hi
    subst hi
    norm_num [show (List.replicate 62 (100 : ℚ)).getD 0 0 = 100 from rfl],
    C8_invalid_entry_amended.2 (List.replicate 62 (100 : ℚ)) [0] [1] (1/5)
      (by
        intro i hi
        simp only [List.mem_singleton] at hi
        subst hi
        norm_num [show (List.replicate 62 (100 : ℚ)).getD 0 0 = 100 from rfl])⟩

/-- C9 counterexample (claim as stated is false): `0.1` is a
`zone_width_pct` grid value, yet the clustering the code performs for
it — `_cluster_zones`, with the fixed tolerance `CLUSTER_PCT = 0.3` —
merges the observations at 100 and 100.2 into ONE zone of strength 2
(0.2% ≤ 0.3%), not two zones of strength 1. -/
theorem C9_zone_width_counterexample :
    (1/10 : ℚ) ∈ ZONE_WIDTHS
    ∧ (cluster_zones [⟨100, ("support"), 0⟩, ⟨1002/10, ("support"), 0⟩]).length
        = 1
    ∧ (cluster_zones [⟨100, ("support"), 0⟩, ⟨1002/10, ("support"), 0⟩]).map
        Cluster.strength = [2] := by
  refine ⟨by norm_num [ZONE_WIDTHS], ?_, ?_⟩ <;>
    norm_num [cluster_zones, cluster_zones_with, sort_obs,
      List.insertionSort, List.orderedInsert, groupsOf, groupsGo,
      mk_cluster, CLUSTER_PCT]

/-- C9 amended: the single price-sorted sweep merging each observation
against the current cluster's first member is governed by the CLUSTER
tolerance, which the source fixes to `CLUSTER_PCT = 0.3` independently
of `zone_width_pct`: with tolerance 0.5 the observations at 100 and
100.2 merge into one zone of strength 2, with tolerance 0.1 they stay
two zones of strength 1, and the code's `_cluster_zones` (tolerance
0.3, used for every `zone_width_pct`) merges them. -/
theorem C9_zone_clustering_amended :
    CLUSTER_PCT = 3/10
    ∧ cluster_zones_with (1/2)
        [⟨100, ("support"), 0⟩, ⟨1002/10, ("support"), 0⟩]
        = [⟨1001/10, ("support"), 2, 0⟩]
    ∧ cluster_zones_with (1/10)
        [⟨100, ("support"), 0⟩, ⟨1002/10, ("support"), 0⟩]
        = [⟨100, ("support"), 1, 0⟩, ⟨1002/10, ("support"), 1, 0⟩]
    ∧ cluster_zones [⟨100, ("support"), 0⟩, ⟨1002/10, ("support"), 0⟩]
        = [⟨1001/10, ("support"), 2, 0⟩] := by
  refine ⟨rfl, ?_, ?_, ?_⟩ <;>
    norm_num [cluster_zones, cluster_zones_with, sort_obs,
      List.insertionSort, List.orderedInsert, groupsOf, groupsGo,
      mk_cluster, CLUSTER_PCT, npMean]

theorem groupsGo_mem (pct : ℚ) :
    ∀ (l : List Obs) (first : Obs) (cur grp : List Obs),
      grp ∈ groupsGo pct first cur l →
        ∀ y ∈ grp, y = first ∨ y ∈ cur ∨ y ∈ l := by
  intro l
  induction l with
  | nil =>
      intro first cur grp hgrp y hy
      simp only [groupsGo, List.mem_singleton] at hgrp
      subst hgrp
      rcases List.mem_cons.mp hy with rfl | hy'
      · exact Or.inl rfl
      · exact Or.inr (Or.inl (List.mem_reverse.mp hy'))
  | cons z zs ih =>
      intro first cur grp hgrp y hy
      simp only [groupsGo] at hgrp
      by_cases hc : (z.price - first.price) / first.price * 100 ≤ pct
      · rw [if_pos hc] at hgrp
        rcases ih first (z :: cur) grp hgrp y hy with h1 | h2 | h3
        · exact Or.inl h1
        · rcases List.mem_cons.mp h2 with rfl | h2'
          · exact Or.inr (Or.inr (List.mem_cons_self _ _))
          · exact Or.inr (Or.inl h2')
        · exact Or.inr (Or.inr (List.mem_cons_of_mem _ h3))
      · rw [if_neg hc] at hgrp
        rcases List.mem_cons.mp hgrp with rfl | hgrp'
        · rcases List.mem_cons.mp hy with rfl | hy'
          · exact Or.inl rfl
          · exact Or.inr (Or.inl (List.mem_reverse.mp hy'))
        · rcases ih z [] grp hgrp' y hy with h1 | h2 | h3
          · exact Or.inr (Or.inr (h1 ▸ List.mem_cons_self _ _))
          · simp at h2
          · exact Or.inr (Or.inr (List.mem_cons_of_mem _ h3))

theorem groupsGo_ne_nil (pct : ℚ) :
    ∀ (l : List Obs) (first : Obs) (cur grp : List Obs),
      grp ∈ groupsGo pct first cur l → grp ≠ [] := by
  intro l
  induction l with
  | nil =>
      intro first cur grp hgrp
      simp only [groupsGo, List.mem_singleton] at hgrp
      subst hgrp
      simp
  | cons z zs ih =>
      intro first cur grp hgrp
      simp only [groupsGo] at hgrp
      by_cases hc : (z.price - first.price) / first.price * 100 ≤ pct
      · rw [if_pos hc] at hgrp
        exact ih _ _ _ hgrp
      · rw [if_neg hc] at hgrp
        rcases List.mem_cons.mp hgrp with rfl | h'
        · simp
        · exact ih _ _ _ h'

theorem groupsOf_mem (pct : ℚ) (l : List Obs) (grp : List Obs)
    (hgrp : grp ∈ groupsOf pct l) : grp ≠ [] ∧ ∀ y ∈ grp, y ∈ l := by
  cases l with
  | nil => simp [groupsOf] at hgrp
  | cons x xs =>
      simp only [groupsOf] at hgrp
      refine ⟨groupsGo_ne_nil pct xs x [] grp hgrp, ?_⟩
      intro y hy
      rcases groupsGo_mem pct xs x [] grp hgrp y hy with rfl | h2 | h3
      · exact List.mem_cons_self _ _
      · simp at h2
      · exact List.mem_cons_of_mem _ h3

theorem countP_sides (grp : List Obs)
    (h : ∀ o ∈ grp, o.side = "support" ∨ o.side = "resistance") :
    grp.countP (fun o => decide (o.side = "support"))
      + grp.countP (fun o => decide (o.side = "resistance"))
      = grp.length := by
  have hne : ("support" : String) ≠ "resistance" := by decide
  induction grp with
  | nil => rfl
  | cons o os ih =>
      have hos := ih (fun x hx => h x (List.mem_cons_of_mem _ hx))
      rcases h o (List.mem_cons_self _ _) with hs | hr
      · simp only [List.countP_cons, hs, List.length_cons]
        simp [hne]
        omega
      · simp only [List.countP_cons, hr, List.length_cons]
        simp [Ne.symm hne]
        omega

theorem mk_cluster_ztype (grp : List Obs) :
    (mk_cluster grp).ztype
      = (if grp.length - grp.countP (fun o => decide (o.side = "support"))
            ≤ grp.countP (fun o => decide (o.side = "support"))
         then ("support") else ("resistance")) := rfl

/-- C10. Implicit zone-type tie-break: every cluster produced by the
zone clustering step comes from one nonempty merged group; its type is
`"support"` exactly when the group's support-side member count is at
least its resistance-side member count (an exact tie gives support),
and its strength equals the number of merged members. -/
theorem C10_zone_type_majority (pct : ℚ) (obs : List Obs)
    (hsides : ∀ o ∈ obs, o.side = "support" ∨ o.side = "resistance") :
    ∀ c ∈ cluster_zones_with pct obs,
      ∃ grp, grp ∈ groupsOf pct (sort_obs obs) ∧ grp ≠ []
        ∧ c = mk_cluster grp
        ∧ (c.ztype = "support"
            ↔ grp.countP (fun o => decide (o.side = "resistance"))
                ≤ grp.countP (fun o => decide (o.side = "support")))
        ∧ c.strength = grp.length := by
  intro c hc
  obtain ⟨grp, hgrp, hceq⟩ := List.mem_map.mp hc
  obtain ⟨hne, hmem⟩ := groupsOf_mem pct _ grp hgrp
  have hsides' : ∀ o ∈ grp, o.side = "support" ∨ o.side = "resistance" := by
    intro o ho
    have hms : o ∈ sort_obs obs := hmem o ho
    have hmo : o ∈ obs := by
      have hperm := List.perm_insertionSort
        (fun a b : Obs => a.price ≤ b.price) obs
      exact hperm.mem_iff.mp hms
    exact hsides o hmo
  have hcount := countP_sides grp hsides'
  have hle := List.countP_le_length
    (p := fun o => decide (o.side = "support")) (l := grp)
  subst hceq
  refine ⟨grp, hgrp, hne, rfl, ?_, rfl⟩
  rw [mk_cluster_ztype]
  by_cases hcond : grp.length
      - grp.countP (fun o => decide (o.side = "support"))
      ≤ grp.countP (fun o => decide (o.side = "support"))
  · rw [if_pos hcond]
    constructor
    · intro _
      omega
    · intro _
      rfl
  · rw [if_neg hcond]
    constructor
    · intro hcontra
      exact absurd hcontra (by decide)
    · intro hres
      exact absurd (by omega : grp.length
        - grp.countP (fun o => decide (o.side = "support"))
        ≤ grp.countP (fun o => decide (o.side = "support"))) hcond

/-- Concrete instance of `C10_zone_type_majority`: a tied
support/resistance pair at the same price classifies as support. -/
theorem C10_zone_type_majority_witness :
    (∀ o ∈ ([⟨100, ("support"), 0⟩, ⟨100, ("resistance"), 0⟩] : List Obs),
        o.side = "support" ∨ o.side = "resistance")
    ∧ ∀ c ∈ cluster_zones_with 1
          [⟨100, ("support"), 0⟩, ⟨100, ("resistance"), 0⟩],
        ∃ grp, grp ∈ groupsOf 1 (sort_obs
            [⟨100, ("support"), 0⟩, ⟨100, ("resistance"), 0⟩]) ∧ grp ≠ []
          ∧ c = mk_cluster grp
          ∧ (c.ztype = "support"
              ↔ grp.countP (fun o => decide (o.side = "resistance"))
                  ≤ grp.countP (fun o => decide (o.side = "support")))
          ∧ c.strength = grp.length :=
  ⟨by decide, C10_zone_type_majority 1 _ (by decide)⟩

/-! ### The rows produced by `_build_pct_matrix` have the padded shape
assumed by `C1_path_exit_resolution`: NaN entries (`idx_2d >= m`) form
a suffix because the offset grid is increasing. -/

theorem map_range_pad (N m e : ℕ) (g : ℕ → ℚ) :
    (List.range N).map (fun off =>
        if m ≤ e + off then (none : Option ℚ) else some (g off))
      = ((List.range (min (m - e) N)).map g).map some
          ++ List.replicate (N - min (m - e) N) (none : Option ℚ) := by
  apply List.ext_getElem?
  intro i
  by_cases hiN : i < N
  · rw [List.getElem?_map, List.getElem?_range hiN]
    by_cases hid : i < min (m - e) N
    · have hlt : i < (((List.range (min (m - e) N)).map g).map some).length := by
        simpa using hid
      rw [List.getElem?_append, if_pos hlt, List.getElem?_map,
        List.getElem?_map, List.getElem?_range hid]
      have : ¬ m ≤ e + i := by omega
      simp [this]
    · have hlen : (((List.range (min (m - e) N)).map g).map some).length
          = min (m - e) N := by simp
      have hge : ¬ i < (((List.range (min (m - e) N)).map g).map some).length := by
        rw [hlen]
        omega
      rw [List.getElem?_append, if_neg hge, List.getElem?_replicate, hlen]
      have hmle : m ≤ e + i := by omega
      have hcond : i - min (m - e) N < N - min (m - e) N := by omega
      simp [hmle, hcond]
  · rw [List.getElem?_map]
    have h1 : (List.range N)[i]? = none := by
      rw [List.getElem?_eq_none]
      simpa using Nat.le_of_not_lt hiN
    rw [h1]
    have h2 : (((List.range (min (m - e) N)).map g).map some
        ++ List.replicate (N - min (m - e) N) (none : Option ℚ))[i]? = none := by
      rw [List.getElem?_eq_none]
      simp only [List.length_append, List.length_map, List.length_range,
        List.length_replicate]
      omega
    rw [h2]
    rfl

theorem build_pct_row_shape (sigTs : ℤ) (priceTs : List ℤ) (prices : List ℚ)
    (hpos : 0 < (build_pct_row sigTs priceTs prices).2) :
    ∃ vals k, vals ≠ []
      ∧ (build_pct_row sigTs priceTs prices).1
          = vals.map some ++ List.replicate k (none : Option ℚ) := by
  have hm : prices ≠ [] := by
    intro hnil
    rw [build_pct_row, hnil] at hpos
    simp [List.getD] at hpos
  have hmpos : 0 < prices.length := List.length_pos.mpr hm
  set e := min (searchsorted_left priceTs sigTs) (prices.length - 1) with he
  have hem : e < prices.length := by omega
  refine ⟨(List.range (min (prices.length - e) MAX_HOLD)).map
      (fun off => (prices.getD (e + off) 0
        - prices.getD e 0) / prices.getD e 0 * 100),
    MAX_HOLD - min (prices.length - e) MAX_HOLD, ?_, ?_⟩
  · have hd : 0 < min (prices.length - e) MAX_HOLD := by
      have : (0 : ℕ) < MAX_HOLD := by norm_num [MAX_HOLD]
      omega
    simp [List.range_eq_nil]
    omega
  · show (build_pct_row sigTs priceTs prices).1 = _
    rw [build_pct_row]
    simp only
    have hep : 0 < prices.getD e 0 := by
      have : (build_pct_row sigTs priceTs prices).2 = prices.getD e 0 := by
        rw [build_pct_row]
      rwa [this] at hpos
    have hrow : (List.range MAX_HOLD).map (fun off =>
          if prices.length ≤ e + off then (none : Option ℚ)
          else if 0 < prices.getD e 0
          then some ((prices.getD (e + off) 0
            - prices.getD e 0) / prices.getD e 0 * 100)
          else none)
        = (List.range MAX_HOLD).map (fun off =>
          if prices.length ≤ e + off then (none : Option ℚ)
          else some ((prices.getD (e + off) 0
            - prices.getD e 0) / prices.getD e 0 * 100)) := by
      apply List.map_congr_left
      intro off _
      have hep' : 0 < prices[e]?.getD 0 := by
        rwa [List.getD_eq_getElem?_getD] at hep
      by_cases hoff : prices.length ≤ e + off
      · simp [hoff]
      · simp [hoff, hep, hep']
    rw [hrow, map_range_pad]

end Backtest
